import Mathlib

/-!
Verification of the `gyro` fixed-cadence game-loop scheduler.

The development shallowly embeds the Go sources (`src/gyro.go`, final variant of the
`Loop` type: `SetTargetFps` at lines 380-384, `Start` at 421-441, `Stop` at 444-452,
`run` at 454-497) into Lean:

* `SetTargetFps` stores `targetFps = max(fps, 1)` and derives the per-frame budget
  `msPerFrame = int(1.0 / float32(targetFps) * 1000)`.  The 32-bit float arithmetic is
  modelled exactly on `ℚ` by `roundF32`, IEEE-754 round-to-nearest-even at 24 bits of
  precision (with unbounded exponent; every value reached here lies far inside the
  binary32 normal range, so no overflow or subnormal case can occur).
* The scheduling loop `run` is embedded as a step function over an explicit wall clock
  measured in nanoseconds.  Callbacks are opaque: each iteration is driven by an
  `Iter` oracle giving the wall-clock duration of each registered callback and whether
  it panics.  Bookkeeping between clock reads is attributed zero cost.
* `Start`, `Stop` and the accessors are embedded directly; the `stopCh` cancellation
  channel is represented by the length of the oracle list (the loop body executes once
  per oracle entry and the stop signal is observed at the top of the next pass).
-/

namespace Gyro

/-! ### Exact model of the 32-bit float computation in `SetTargetFps` -/

/-- Fuelled binary logarithm: `log2fuel f n` is `⌊log₂ n⌋` provided `n ≤ f` (and `1 ≤ n`).
The fuel makes the recursion structural, so the kernel can evaluate it. -/
def log2fuel : ℕ → ℕ → ℕ
  | 0, _ => 0
  | f + 1, n => if n ≤ 1 then 0 else log2fuel f (n / 2) + 1

/-- Binary logarithm on `ℕ`, correct for every `n ≥ 1` since `n < 2 ^ n`. -/
def log2N (n : ℕ) : ℕ := log2fuel n n

/-- Integer power of two as a rational, for both signs of the exponent. -/
def qpow2 (e : ℤ) : ℚ :=
  if 0 ≤ e then ((2 ^ e.toNat : ℕ) : ℚ) else 1 / ((2 ^ (-e).toNat : ℕ) : ℚ)

/-- Floor of a rational, computed directly from the normalized fraction. -/
def floorQ (q : ℚ) : ℤ := Int.fdiv q.num q.den

/-- Binary exponent of a positive rational: the unique `e` with `2 ^ e ≤ q < 2 ^ (e+1)`. -/
def qlog2 (q : ℚ) : ℤ :=
  let e0 : ℤ := (log2N q.num.natAbs : ℤ) - (log2N q.den : ℤ)
  if qpow2 e0 ≤ q then e0 else e0 - 1

/-- Round a rational to the nearest integer, ties to even (IEEE default rounding). -/
def rhe (q : ℚ) : ℤ :=
  if q - (floorQ q : ℚ) < 1 / 2 then floorQ q
  else if 1 / 2 < q - (floorQ q : ℚ) then floorQ q + 1
  else if 2 ∣ floorQ q then floorQ q else floorQ q + 1

/-- Round a positive rational to the nearest IEEE binary32 value (24-bit significand,
round to nearest, ties to even; exponent unbounded, which agrees with binary32 on the
whole normal range). -/
def roundF32 (q : ℚ) : ℚ := (rhe (q / qpow2 (qlog2 q - 23)) : ℚ) * qpow2 (qlog2 q - 23)

/-- The float32 expression `1.0 / float32(t) * 1000` from `SetTargetFps`
(src/gyro.go line 382): convert `t` to float32, divide, multiply, each step correctly
rounded. The literals `1.0` and `1000` are exact in binary32. -/
def f32chain (t : ℚ) : ℚ := roundF32 (roundF32 (1 / roundF32 t) * 1000)

/-- Go conversion of a float to `int`: truncation toward zero. -/
def truncQ (q : ℚ) : ℤ := Int.tdiv q.num q.den

/-- The stored per-frame budget `int(1.0 / float32(t) * 1000)` of src/gyro.go line 382. -/
def msPerFrameF32 (t : ℤ) : ℤ := truncQ (f32chain (t : ℚ))

/-- Unit relative rounding error of binary32: `2⁻²⁴`. -/
def eps32 : ℚ := 1 / 16777216

theorem log2fuel_spec (f : ℕ) : ∀ n : ℕ, 1 ≤ n → n ≤ f →
    2 ^ log2fuel f n ≤ n ∧ n < 2 ^ (log2fuel f n + 1) := by
  induction f with
  | zero => intro n h1 h2; omega
  | succ f ih =>
    intro n h1 h2
    rw [log2fuel]
    by_cases hn : n ≤ 1
    · simp [hn]; omega
    · have hn2 : 2 ≤ n := by omega
      have hrec := ih (n / 2) (by omega) (by omega)
      rw [if_neg hn]
      constructor
      · calc 2 ^ (log2fuel f (n / 2) + 1) = 2 * 2 ^ log2fuel f (n / 2) := by ring
          _ ≤ 2 * (n / 2) := by omega
          _ ≤ n := by omega
      · calc n < 2 * (n / 2) + 2 := by omega
          _ ≤ 2 * 2 ^ (log2fuel f (n / 2) + 1) := by omega
          _ = 2 ^ (log2fuel f (n / 2) + 1 + 1) := by ring

theorem log2N_spec (n : ℕ) (h : 1 ≤ n) :
    2 ^ log2N n ≤ n ∧ n < 2 ^ (log2N n + 1) :=
  log2fuel_spec n n h le_rfl

theorem qpow2_eq_zpow (e : ℤ) : qpow2 e = (2 : ℚ) ^ e := by
  unfold qpow2
  by_cases he : 0 ≤ e
  · rw [if_pos he]
    push_cast
    rw [← zpow_natCast (2 : ℚ), Int.toNat_of_nonneg he]
  · rw [if_neg he]
    push_cast
    rw [← zpow_natCast (2 : ℚ), Int.toNat_of_nonneg (by omega : (0 : ℤ) ≤ -e),
      one_div, ← zpow_neg, neg_neg]

theorem qpow2_pos (e : ℤ) : 0 < qpow2 e := by
  rw [qpow2_eq_zpow]; positivity

theorem qlog2_spec (q : ℚ) (hq : 0 < q) :
    qpow2 (qlog2 q) ≤ q ∧ q < qpow2 (qlog2 q + 1) := by
  have hnum : 0 < q.num := Rat.num_pos.2 hq
  set a : ℕ := q.num.natAbs with ha
  set b : ℕ := q.den with hb
  have ha1 : 1 ≤ a := by omega
  have hb1 : 1 ≤ b := q.pos
  have haqZ : (a : ℤ) = q.num := Int.natAbs_of_nonneg hnum.le
  have haq : (q.num : ℚ) = (a : ℚ) := by exact_mod_cast haqZ.symm
  have hqab : q = (a : ℚ) / (b : ℚ) := by
    rw [← haq, hb]; exact (Rat.num_div_den q).symm
  have hbq : (0 : ℚ) < (b : ℚ) := by exact_mod_cast hb1
  obtain ⟨hA1, hA2⟩ := log2N_spec a ha1
  obtain ⟨hB1, hB2⟩ := log2N_spec b hb1
  set La := log2N a with hLa
  set Lb := log2N b with hLb
  have hA1Q : ((2 : ℚ)) ^ (La : ℤ) ≤ (a : ℚ) := by
    rw [zpow_natCast]; exact_mod_cast hA1
  have hA2Q : (a : ℚ) < (2 : ℚ) ^ ((La : ℤ) + 1) := by
    have : ((La : ℤ) + 1) = ((La + 1 : ℕ) : ℤ) := by push_cast; ring
    rw [this, zpow_natCast]; exact_mod_cast hA2
  have hB1Q : ((2 : ℚ)) ^ (Lb : ℤ) ≤ (b : ℚ) := by
    rw [zpow_natCast]; exact_mod_cast hB1
  have hB2Q : (b : ℚ) < (2 : ℚ) ^ ((Lb : ℤ) + 1) := by
    have : ((Lb : ℤ) + 1) = ((Lb + 1 : ℕ) : ℤ) := by push_cast; ring
    rw [this, zpow_natCast]; exact_mod_cast hB2
  have key_upper : q < (2 : ℚ) ^ ((La : ℤ) - (Lb : ℤ) + 1) := by
    rw [hqab, div_lt_iff hbq]
    calc (a : ℚ) < (2 : ℚ) ^ ((La : ℤ) + 1) := hA2Q
      _ = (2 : ℚ) ^ ((La : ℤ) - (Lb : ℤ) + 1) * (2 : ℚ) ^ (Lb : ℤ) := by
          rw [← zpow_add₀ (by norm_num : (2 : ℚ) ≠ 0)]; ring_nf
      _ ≤ (2 : ℚ) ^ ((La : ℤ) - (Lb : ℤ) + 1) * (b : ℚ) := by
          exact mul_le_mul_of_nonneg_left hB1Q (by positivity)
  have key_lower : (2 : ℚ) ^ ((La : ℤ) - (Lb : ℤ) - 1) ≤ q := by
    rw [hqab, le_div_iff hbq]
    calc (2 : ℚ) ^ ((La : ℤ) - (Lb : ℤ) - 1) * (b : ℚ)
        ≤ (2 : ℚ) ^ ((La : ℤ) - (Lb : ℤ) - 1) * (2 : ℚ) ^ ((Lb : ℤ) + 1) := by
          exact mul_le_mul_of_nonneg_left hB2Q.le (by positivity)
      _ = (2 : ℚ) ^ (La : ℤ) := by
          rw [← zpow_add₀ (by norm_num : (2 : ℚ) ≠ 0)]; ring_nf
      _ ≤ (a : ℚ) := hA1Q
  unfold qlog2
  simp only [← ha, ← hb, ← hLa, ← hLb]
  by_cases hcase : qpow2 ((La : ℤ) - (Lb : ℤ)) ≤ q
  · rw [if_pos hcase]
    exact ⟨hcase, by rw [qpow2_eq_zpow]; exact key_upper⟩
  · rw [if_neg hcase]
    refine ⟨?_, ?_⟩
    · rw [qpow2_eq_zpow]; exact key_lower
    · rw [qpow2_eq_zpow]
      have h11 : (La : ℤ) - (Lb : ℤ) - 1 + 1 = (La : ℤ) - (Lb : ℤ) := by ring
      rw [h11, ← qpow2_eq_zpow]
      exact lt_of_not_le hcase

theorem floorQ_eq (q : ℚ) : floorQ q = ⌊q⌋ := by
  rw [floorQ, Int.fdiv_eq_ediv _ (by exact_mod_cast Nat.zero_le q.den : (0:ℤ) ≤ (q.den : ℤ)),
    Rat.floor_def]

theorem rhe_bounds (q : ℚ) : q - 1 / 2 ≤ (rhe q : ℚ) ∧ (rhe q : ℚ) ≤ q + 1 / 2 := by
  have hfl : (floorQ q : ℚ) ≤ q := by rw [floorQ_eq]; exact Int.floor_le q
  have hfu : q < (floorQ q : ℚ) + 1 := by rw [floorQ_eq]; exact Int.lt_floor_add_one q
  unfold rhe
  split_ifs with h1 h2 h3 <;> constructor <;> push_cast <;> linarith

theorem roundF32_bounds (q : ℚ) (hq : 0 < q) :
    q * (1 - eps32) ≤ roundF32 q ∧ roundF32 q ≤ q * (1 + eps32) := by
  obtain ⟨hl, hu⟩ := qlog2_spec q hq
  have hupos : 0 < qpow2 (qlog2 q - 23) := qpow2_pos _
  set u := qpow2 (qlog2 q - 23) with hudef
  obtain ⟨hr1, hr2⟩ := rhe_bounds (q / u)
  have hround : roundF32 q = (rhe (q / u) : ℚ) * u := rfl
  have hb1 : q - u / 2 ≤ roundF32 q := by
    rw [hround]
    have h := mul_le_mul_of_nonneg_right hr1 hupos.le
    calc q - u / 2 = (q / u - 1 / 2) * u := by field_simp; ring
      _ ≤ (rhe (q / u) : ℚ) * u := h
  have hb2 : roundF32 q ≤ q + u / 2 := by
    rw [hround]
    have h := mul_le_mul_of_nonneg_right hr2 hupos.le
    calc (rhe (q / u) : ℚ) * u ≤ (q / u + 1 / 2) * u := h
      _ = q + u / 2 := by field_simp; ring
  have h23 : u = qpow2 (qlog2 q) / 8388608 := by
    rw [hudef, qpow2_eq_zpow, qpow2_eq_zpow, zpow_sub₀ (by norm_num : (2 : ℚ) ≠ 0)]
    norm_num
  have hub : u ≤ q / 8388608 := by
    rw [h23]
    exact (div_le_div_right (by norm_num)).2 hl
  have hepsval : eps32 = 1 / 16777216 := rfl
  constructor <;> rw [hepsval] <;> nlinarith [hb1, hb2, hub]

theorem roundF32_pos (q : ℚ) (hq : 0 < q) : 0 < roundF32 q := by
  have h := (roundF32_bounds q hq).1
  have heps : (0 : ℚ) < 1 - eps32 := by norm_num [eps32]
  nlinarith

theorem f32chain_bounds (t : ℚ) (ht : 1 ≤ t) :
    1000 * (1 - 4 * eps32) ≤ f32chain t * t ∧ f32chain t * t ≤ 1000 * (1 + 4 * eps32) := by
  have ht0 : 0 < t := lt_of_lt_of_le one_pos ht
  obtain ⟨ha1, ha2⟩ := roundF32_bounds t ht0
  have ha0 : 0 < roundF32 t := roundF32_pos t ht0
  set a := roundF32 t with hadef
  have hia : 0 < 1 / a := by positivity
  obtain ⟨hb1, hb2⟩ := roundF32_bounds (1 / a) hia
  have hb0 : 0 < roundF32 (1 / a) := roundF32_pos _ hia
  set b := roundF32 (1 / a) with hbdef
  have hm0 : 0 < b * 1000 := by positivity
  obtain ⟨hc1, hc2⟩ := roundF32_bounds (b * 1000) hm0
  have hchain : f32chain t = roundF32 (b * 1000) := rfl
  set c := roundF32 (b * 1000) with hcdef
  rw [hchain]
  have heps0 : (0 : ℚ) < eps32 := by norm_num [eps32]
  have heps1 : eps32 < 1 / 2 := by norm_num [eps32]
  have hab1 : 1 - eps32 ≤ a * b := by
    have h := mul_le_mul_of_nonneg_left hb1 ha0.le
    calc 1 - eps32 = a * (1 / a * (1 - eps32)) := by field_simp
      _ ≤ a * b := h
  have hab2 : a * b ≤ 1 + eps32 := by
    have h := mul_le_mul_of_nonneg_left hb2 ha0.le
    calc a * b ≤ a * (1 / a * (1 + eps32)) := h
      _ = 1 + eps32 := by field_simp
  have hbt1 : (1 - eps32) / (1 + eps32) ≤ b * t := by
    rw [div_le_iff (by linarith)]
    have h1 : a * b ≤ t * (1 + eps32) * b := mul_le_mul_of_nonneg_right ha2 hb0.le
    nlinarith [hab1, h1]
  have hbt2 : b * t ≤ (1 + eps32) / (1 - eps32) := by
    rw [le_div_iff (by linarith)]
    have h1 : t * (1 - eps32) * b ≤ a * b := mul_le_mul_of_nonneg_right ha1 hb0.le
    nlinarith [hab2, h1]
  constructor
  · have hnum : (1000 : ℚ) * (1 - 4 * eps32) ≤
        1000 * (1 - eps32) * ((1 - eps32) / (1 + eps32)) := by
      rw [eps32]; norm_num
    calc 1000 * (1 - 4 * eps32)
        ≤ 1000 * (1 - eps32) * ((1 - eps32) / (1 + eps32)) := hnum
      _ ≤ 1000 * (1 - eps32) * (b * t) := by
          apply mul_le_mul_of_nonneg_left hbt1 (by nlinarith)
      _ = b * 1000 * (1 - eps32) * t := by ring
      _ ≤ c * t := mul_le_mul_of_nonneg_right hc1 ht0.le
  · have hnum : (1000 : ℚ) * (1 + eps32) * ((1 + eps32) / (1 - eps32)) ≤
        1000 * (1 + 4 * eps32) := by
      rw [eps32]; norm_num
    calc c * t ≤ b * 1000 * (1 + eps32) * t := mul_le_mul_of_nonneg_right hc2 ht0.le
      _ = 1000 * (1 + eps32) * (b * t) := by ring
      _ ≤ 1000 * (1 + eps32) * ((1 + eps32) / (1 - eps32)) := by
          apply mul_le_mul_of_nonneg_left hbt2 (by nlinarith)
      _ ≤ 1000 * (1 + 4 * eps32) := hnum

theorem truncQ_eq_intCast (z : ℤ) (q : ℚ) (hz : 0 ≤ z) (hq1 : (z : ℚ) ≤ q)
    (hq2 : q < (z : ℚ) + 1) : truncQ q = z := by
  have hq0 : (0 : ℚ) ≤ q := le_trans (by exact_mod_cast hz) hq1
  have hnum : 0 ≤ q.num := Rat.num_nonneg.2 hq0
  have hden : (0 : ℤ) ≤ (q.den : ℤ) := by exact_mod_cast Nat.zero_le q.den
  rw [truncQ, Int.tdiv_eq_ediv hnum hden, ← Rat.floor_def]
  rw [Int.floor_eq_iff]
  exact ⟨hq1, by exact_mod_cast hq2⟩

theorem dvd1000_cases (t : ℤ) (h1 : 1 ≤ t) (h2 : t ∣ 1000) :
    t = 1 ∨ t = 2 ∨ t = 4 ∨ t = 5 ∨ t = 8 ∨ t = 10 ∨ t = 20 ∨ t = 25 ∨
    t = 40 ∨ t = 50 ∨ t = 100 ∨ t = 125 ∨ t = 200 ∨ t = 250 ∨ t = 500 ∨
    t = 1000 := by
  have hsmall : ∀ n ∈ List.range 32, n ∣ 1000 →
      n = 1 ∨ n = 2 ∨ n = 4 ∨ n = 5 ∨ n = 8 ∨ n = 10 ∨ n = 20 ∨ n = 25 := by decide
  obtain ⟨m, hm⟩ := h2
  have hm1 : 1 ≤ m := by nlinarith [hm]
  by_cases h31 : t ≤ 31
  · have ht' : ((t.toNat : ℤ)) = t := Int.toNat_of_nonneg (by omega)
    have htn : t.toNat ∣ 1000 := by
      have h' : (t.toNat : ℤ) ∣ ((1000 : ℕ) : ℤ) := by
        rw [ht']; exact ⟨m, by exact_mod_cast hm⟩
      exact_mod_cast h'
    have := hsmall t.toNat (List.mem_range.mpr (by omega)) htn
    omega
  · have hm31 : m ≤ 31 := by nlinarith [hm]
    have hm' : ((m.toNat : ℤ)) = m := Int.toNat_of_nonneg (by omega)
    have hmn : m.toNat ∣ 1000 := by
      have h' : (m.toNat : ℤ) ∣ ((1000 : ℕ) : ℤ) := by
        rw [hm']; exact ⟨t, by push_cast; rw [hm]; ring⟩
      exact_mod_cast h'
    have hmem := hsmall m.toNat (List.mem_range.mpr (by omega)) hmn
    rcases hmem with h | h | h | h | h | h | h | h
    · have hmv : m = 1 := by omega
      subst hmv; omega
    · have hmv : m = 2 := by omega
      subst hmv; omega
    · have hmv : m = 4 := by omega
      subst hmv; omega
    · have hmv : m = 5 := by omega
      subst hmv; omega
    · have hmv : m = 8 := by omega
      subst hmv; omega
    · have hmv : m = 10 := by omega
      subst hmv; omega
    · have hmv : m = 20 := by omega
      subst hmv; omega
    · have hmv : m = 25 := by omega
      subst hmv; omega

/-- The central numerical fact about `SetTargetFps`: for every stored (clamped)
target rate `t ≥ 1` the Go expression `int(1.0 / float32(t) * 1000)` computes exactly
the truncated integer quotient `1000 / t`, the float32 rounding errors never crossing
an integer boundary. -/
theorem msPerFrameF32_eq (t : ℤ) (h1 : 1 ≤ t) : msPerFrameF32 t = 1000 / t := by
  have htQ : (1 : ℚ) ≤ (t : ℚ) := by exact_mod_cast h1
  have ht0 : (0 : ℚ) < (t : ℚ) := by linarith
  by_cases h1000 : t ≤ 1000
  · by_cases hdvd : t ∣ 1000
    · rcases dvd1000_cases t h1 hdvd with h | h | h | h | h | h | h | h |
        h | h | h | h | h | h | h | h <;>
      · subst h; with_unfolding_all rfl
    · obtain ⟨hcl, hcu⟩ := f32chain_bounds (t : ℚ) htQ
      have hdm := Int.ediv_add_emod 1000 t
      have hr0 : 0 ≤ 1000 % t := Int.emod_nonneg 1000 (by omega)
      have hrt : 1000 % t < t := Int.emod_lt_of_pos 1000 (by omega)
      have hrne : 1000 % t ≠ 0 := fun hcon => hdvd (Int.dvd_of_emod_eq_zero hcon)
      set k : ℤ := 1000 / t with hkdef
      set r : ℤ := 1000 % t with hrdef
      have hktr : t * k + r = 1000 := hdm
      have hk0 : 0 ≤ k := Int.ediv_nonneg (by norm_num) (by omega)
      have hktrQ : (t : ℚ) * (k : ℚ) + (r : ℚ) = 1000 := by exact_mod_cast hktr
      have hr1Q : (1 : ℚ) ≤ (r : ℚ) := by exact_mod_cast (by omega : (1 : ℤ) ≤ r)
      have hrtQ : (r : ℚ) < (t : ℚ) := by exact_mod_cast hrt
      have hgt : (k : ℚ) < f32chain (t : ℚ) := by
        have hstep : (k : ℚ) * (t : ℚ) < 1000 * (1 - 4 * eps32) := by
          rw [eps32]
          have htle : (t : ℚ) ≤ 1000 := by exact_mod_cast h1000
          nlinarith [hktrQ, hr1Q]
        exact lt_of_mul_lt_mul_right (lt_of_lt_of_le hstep hcl) ht0.le
      have hlt : f32chain (t : ℚ) < (k : ℚ) + 1 := by
        have hrt1 : (r : ℚ) + 1 ≤ (t : ℚ) := by exact_mod_cast (by omega : r + 1 ≤ t)
        have hstep : (1000 : ℚ) * (1 + 4 * eps32) < ((k : ℚ) + 1) * (t : ℚ) := by
          rw [eps32]
          nlinarith [hktrQ, hrt1]
        exact lt_of_mul_lt_mul_right (lt_of_le_of_lt hcu hstep) ht0.le
      exact truncQ_eq_intCast k _ hk0 hgt.le hlt
  · obtain ⟨hcl, hcu⟩ := f32chain_bounds (t : ℚ) htQ
    have ht1001 : (1001 : ℚ) ≤ (t : ℚ) := by exact_mod_cast (by omega : (1001 : ℤ) ≤ t)
    have hlt1 : f32chain (t : ℚ) < 1 := by
      have hstep : (1000 : ℚ) * (1 + 4 * eps32) < 1 * (t : ℚ) := by
        rw [eps32]; nlinarith
      exact lt_of_mul_lt_mul_right (lt_of_le_of_lt hcu hstep) ht0.le
    have hge0 : (0 : ℚ) ≤ f32chain (t : ℚ) := by
      by_contra hcon
      push_neg at hcon
      have : f32chain (t : ℚ) * (t : ℚ) < 0 := mul_neg_of_neg_of_pos hcon ht0
      have hpos : (0 : ℚ) < 1000 * (1 - 4 * eps32) := by rw [eps32]; norm_num
      linarith
    have htr := truncQ_eq_intCast 0 (f32chain (t : ℚ)) le_rfl (by exact_mod_cast hge0)
      (by push_cast; linarith)
    rw [msPerFrameF32, htr, eq_comm]
    exact Int.ediv_eq_zero_of_lt (by norm_num) (by omega)

/-! ### The Loop data model (src/gyro.go lines 338-416, final variant) -/

/-- Default target rate, `DEFAULT_FPS = 60` (src/gyro.go line 339). -/
def DEFAULT_FPS : ℤ := 60

/-- Modelled from the spec: the error string constant `ERR_NO_UPDATE_FUNC` referenced
by `Start` (src/gyro.go line 431) is declared in a repository file that is not present
under src.  The spec names this failure `MissingUpdateCallback`, the only checked error
of the public contract, so the model uses that name as the distinguished error value. -/
def ERR_NO_UPDATE_FUNC : String := "MissingUpdateCallback"

/-- The `Loop` struct (src/gyro.go lines 347-367).  The caller-supplied callbacks are
opaque closures, so the model keeps one Bool per slot recording whether the slot holds
a non-nil callback (`hasInput` for `input`, `hasUpdate` for `update`, `hasRender` for
`render`, `hasRecover` for `recoverFunc`); their behaviour (durations, panics) is
supplied per pass by the `Iter` oracle below.  `stopCh` is represented by the oracle
list handed to `run`, and the unused `once` field is dropped.  Go `int` fields become
`ℤ` (no arithmetic here can overflow 64 bits). -/
structure Loop where
  targetFps : ℤ
  msPerFrame : ℤ
  isDebugMode : Bool
  isRunning : Bool
  hasInput : Bool
  hasUpdate : Bool
  hasRender : Bool
  hasRecover : Bool
  currentFps : ℤ
  deriving DecidableEq

/-- `SetDebug` (src/gyro.go lines 375-378). -/
def SetDebug (l : Loop) (debug : Bool) : Loop := { l with isDebugMode := debug }

/-- `SetTargetFps` (src/gyro.go lines 380-384): clamp the requested rate below by 1 and
recompute the per-frame budget `int(1.0 / float32(targetFps) * 1000)`. -/
def SetTargetFps (l : Loop) (fps : ℤ) : Loop :=
  { l with targetFps := max fps 1, msPerFrame := msPerFrameF32 (max fps 1) }

/-- `GetTargetFps` (src/gyro.go lines 386-388). -/
def GetTargetFps (l : Loop) : ℤ := l.targetFps

/-- `GetCurrentFps` (src/gyro.go lines 390-392). -/
def GetCurrentFps (l : Loop) : ℤ := l.currentFps

/-- `IsRunning` (src/gyro.go lines 394-396). -/
def IsRunning (l : Loop) : Bool := l.isRunning

/-- `SetUpdateFunc` (src/gyro.go lines 398-401); the argument records whether the
provided callback is non-nil. -/
def SetUpdateFunc (l : Loop) (updateNonNil : Bool) : Loop := { l with hasUpdate := updateNonNil }

/-- `SetInputFunc` (src/gyro.go lines 403-406). -/
def SetInputFunc (l : Loop) (inputNonNil : Bool) : Loop := { l with hasInput := inputNonNil }

/-- `SetRenderFunc` (src/gyro.go lines 408-411). -/
def SetRenderFunc (l : Loop) (renderNonNil : Bool) : Loop := { l with hasRender := renderNonNil }

/-- `SetRecoverFunc` (src/gyro.go lines 413-416). -/
def SetRecoverFunc (l : Loop) (recoverNonNil : Bool) : Loop := { l with hasRecover := recoverNonNil }

/-- `NewLoop` (src/gyro.go lines 369-373): zero-valued struct, then `SetTargetFps 60`. -/
def NewLoop : Loop :=
  SetTargetFps
    { targetFps := 0, msPerFrame := 0, isDebugMode := false, isRunning := false,
      hasInput := false, hasUpdate := false, hasRender := false, hasRecover := false,
      currentFps := 0 } DEFAULT_FPS

/-! ### The scheduling loop `run` (src/gyro.go lines 454-497)

The wall clock is explicit, in nanoseconds.  Each pass of the loop body is driven by an
`Iter` oracle entry giving the observable behaviour of the opaque callbacks for that
pass; bookkeeping between clock reads is attributed zero cost.  The `stopCh` channel is
represented by the length of the oracle list: the `select` at the top of the pass takes
the stop branch exactly when the list is exhausted. -/

/-- Phase events observed by the caller: which callback was invoked, and for the update
phase the `deltaTime` argument (nanoseconds) it received. -/
inductive Event where
  | input : Event
  | update : ℕ → Event
  | render : Event
  deriving DecidableEq

/-- Oracle for one pass: the wall-clock duration of each registered callback and
whether it panics (carrying an opaque fault value). -/
structure Iter where
  inputDur : ℕ
  updateDur : ℕ
  renderDur : ℕ
  inputPanic : Option ℕ
  updatePanic : Option ℕ
  renderPanic : Option ℕ
  deriving DecidableEq

/-- Mutable state of `run` (locals of src/gyro.go lines 455-458 plus the loop field
`currentFps` written at line 485), together with the wall clock `now`. -/
structure RunState where
  now : ℕ
  lastFrame : ℕ
  lastSecond : ℕ
  frameCounter : ℤ
  currentFps : ℤ
  deriving DecidableEq

/-- Observable record of one executed pass: the callback events in invocation order,
the pass timestamps, the computed sleep amount (in milliseconds, possibly negative)
and the fps value published by the rate meter, if any. -/
structure IterResult where
  events : List Event
  startT : ℕ
  updCallT : ℕ
  endT : ℕ
  sleepMs : ℤ
  published : Option ℤ
  deriving DecidableEq

/-- One registered phase: invoking a non-nil callback either panics (propagating the
fault value) or completes, advancing the wall clock by the callback's duration;
a nil slot is skipped. -/
def phaseRun (registered : Bool) (dur : ℕ) (panicv : Option ℕ) (t : ℕ) : Except ℕ ℕ :=
  if registered then
    match panicv with
    | some v => Except.error v
    | none => Except.ok (t + dur)
  else Except.ok t

/-- One pass of the loop body (src/gyro.go lines 464-494): record `start`; invoke
input, update (argument `time.Since(lastFrame)`), render, in order, each iff non-nil;
write the completion timestamp to `lastFrame`; increment `frameCounter`; if
`time.Since(lastSecond).Seconds() >= 1` publish `currentFps = frameCounter` and reset
the window; compute `sleepTime = int64(msPerFrame) - time.Since(start).Milliseconds()`
and sleep that many milliseconds iff positive. -/
def step (l : Loop) (d : Iter) (s : RunState) : Except ℕ (RunState × IterResult) :=
  match phaseRun l.hasInput d.inputDur d.inputPanic s.now with
  | Except.error v => Except.error v
  | Except.ok t1 =>
    match phaseRun l.hasUpdate d.updateDur d.updatePanic t1 with
    | Except.error v => Except.error v
    | Except.ok t2 =>
      match phaseRun l.hasRender d.renderDur d.renderPanic t2 with
      | Except.error v => Except.error v
      | Except.ok t3 =>
        let dt := t1 - s.lastFrame
        let fc := s.frameCounter + 1
        let roll := decide (1000000000 ≤ t3 - s.lastSecond)
        let sleepMs : ℤ := l.msPerFrame - (((t3 - s.now) / 1000000 : ℕ) : ℤ)
        Except.ok
          ({ now := if 0 < sleepMs then t3 + sleepMs.toNat * 1000000 else t3
             lastFrame := t3
             lastSecond := if roll then t3 else s.lastSecond
             frameCounter := if roll then 0 else fc
             currentFps := if roll then fc else s.currentFps },
           { events :=
               (if l.hasInput then [Event.input] else []) ++
               (if l.hasUpdate then [Event.update dt] else []) ++
               (if l.hasRender then [Event.render] else [])
             startT := s.now
             updCallT := t1
             endT := t3
             sleepMs := sleepMs
             published := if roll then some fc else none })

/-- Iterate `step` until the oracle list is exhausted (the stop signal is then observed
by the `select` at the top of the next pass) or a callback panics.  Returns the final
state, the trace of completed passes, and the fault value if one was raised. -/
def runSteps (l : Loop) : RunState → List Iter → RunState × List IterResult × Option ℕ
  | s, [] => (s, [], none)
  | s, d :: ds =>
    match step l d s with
    | Except.error v => (s, [], some v)
    | Except.ok (s1, r) =>
      match runSteps l s1 ds with
      | (s2, rs, f) => (s2, r :: rs, f)

/-- The loop driver `run` (src/gyro.go lines 454-497): `frameCounter := 0`, both
timestamps initialized to the current time `t0`, then the pass body iterates.  The
final `currentFps` is visible on the loop; the other locals die with the call. -/
def run (l : Loop) (t0 : ℕ) (ds : List Iter) : Loop × List IterResult × Option ℕ :=
  match runSteps l ⟨t0, t0, t0, 0, l.currentFps⟩ ds with
  | (s, rs, f) => ({ l with currentFps := s.currentFps }, rs, f)

/-- Result of `Start` (src/gyro.go lines 421-441).  `err msg` is a non-nil error
return; `ok` is a nil error return; `okRecovered v` means a callback panicked with
value `v`, the deferred `recover` caught it and delivered it to the registered
`recoverFunc`, and `Start` returned normally; `panicked v` means the panic propagated
out of `Start` because no `recoverFunc` was registered. -/
inductive StartOutcome where
  | err : String → StartOutcome
  | ok : StartOutcome
  | okRecovered : ℕ → StartOutcome
  | panicked : ℕ → StartOutcome
  deriving DecidableEq

/-- `Start` (src/gyro.go lines 421-441): install the recover handler if `recoverFunc`
is non-nil; fail with `ERR_NO_UPDATE_FUNC` if no update callback is set; return nil at
once if already running; otherwise set `isRunning` and block in `run`. -/
def Start (l : Loop) (t0 : ℕ) (ds : List Iter) : StartOutcome × Loop × List IterResult :=
  if l.hasUpdate = false then (StartOutcome.err ERR_NO_UPDATE_FUNC, l, [])
  else if l.isRunning then (StartOutcome.ok, l, [])
  else
    match run { l with isRunning := true } t0 ds with
    | (l2, rs, none) => (StartOutcome.ok, l2, rs)
    | (l2, rs, some v) =>
      if l.hasRecover then (StartOutcome.okRecovered v, l2, rs)
      else (StartOutcome.panicked v, l2, rs)

/-- `Stop` (src/gyro.go lines 444-452): a nil error is returned in every case; when not
running, nothing else happens (in particular the nil `stopCh` is not closed); when
running, `isRunning` is cleared and `stopCh` is closed (the closed channel is what ends
the oracle list of the concurrently blocked `run`). -/
def Stop (l : Loop) : Option String × Loop :=
  if l.isRunning = false then (none, l)
  else (none, { l with isRunning := false })


/-! ### Structural lemmas about `step` and `runSteps` -/

theorem phaseRun_ok_le (registered : Bool) (dur : ℕ) (panicv : Option ℕ) (t tr : ℕ)
    (h : phaseRun registered dur panicv t = Except.ok tr) : t ≤ tr := by
  unfold phaseRun at h
  cases registered with
  | false => simp at h; omega
  | true =>
    cases panicv with
    | some v => simp at h
    | none => simp at h; omega

/-- Inversion of a successful pass: the control flow of the loop body determines every
field of the successor state and the pass record from the three phase completion
times. -/
theorem step_ok_elim (l : Loop) (d : Iter) (s : RunState) (s1 : RunState)
    (res : IterResult) (h : step l d s = Except.ok (s1, res)) :
    ∃ t1 t2 t3 : ℕ,
      phaseRun l.hasInput d.inputDur d.inputPanic s.now = Except.ok t1 ∧
      phaseRun l.hasUpdate d.updateDur d.updatePanic t1 = Except.ok t2 ∧
      phaseRun l.hasRender d.renderDur d.renderPanic t2 = Except.ok t3 ∧
      s1 = ⟨(if 0 < l.msPerFrame - (((t3 - s.now) / 1000000 : ℕ) : ℤ) then
              t3 + (l.msPerFrame - (((t3 - s.now) / 1000000 : ℕ) : ℤ)).toNat * 1000000
            else t3),
            t3,
            (if decide (1000000000 ≤ t3 - s.lastSecond) then t3 else s.lastSecond),
            (if decide (1000000000 ≤ t3 - s.lastSecond) then 0 else s.frameCounter + 1),
            (if decide (1000000000 ≤ t3 - s.lastSecond) then s.frameCounter + 1
             else s.currentFps)⟩ ∧
      res = ⟨(if l.hasInput then [Event.input] else []) ++
             (if l.hasUpdate then [Event.update (t1 - s.lastFrame)] else []) ++
             (if l.hasRender then [Event.render] else []),
             s.now, t1, t3,
             l.msPerFrame - (((t3 - s.now) / 1000000 : ℕ) : ℤ),
             (if decide (1000000000 ≤ t3 - s.lastSecond) then some (s.frameCounter + 1)
              else none)⟩ := by
  cases hin : phaseRun l.hasInput d.inputDur d.inputPanic s.now with
  | error v => simp only [step, hin] at h; cases h
  | ok t1 =>
    cases hup : phaseRun l.hasUpdate d.updateDur d.updatePanic t1 with
    | error v => simp only [step, hin, hup] at h; cases h
    | ok t2 =>
      cases hrn : phaseRun l.hasRender d.renderDur d.renderPanic t2 with
      | error v => simp only [step, hin, hup, hrn] at h; cases h
      | ok t3 =>
        simp only [step, hin, hup, hrn, Except.ok.injEq, Prod.mk.injEq] at h
        exact ⟨t1, t2, t3, rfl, hup, hrn, h.1.symm, h.2.symm⟩

theorem runSteps_nil (l : Loop) (s : RunState) : runSteps l s [] = (s, [], none) := rfl

theorem runSteps_cons_err (l : Loop) (d : Iter) (ds : List Iter) (s : RunState) (v : ℕ)
    (hst : step l d s = Except.error v) :
    runSteps l s (d :: ds) = (s, [], some v) := by
  rw [runSteps, hst]

theorem runSteps_cons_ok (l : Loop) (d : Iter) (ds : List Iter) (s ps : RunState)
    (pr : IterResult) (hst : step l d s = Except.ok (ps, pr)) :
    runSteps l s (d :: ds) =
      ((runSteps l ps ds).1, pr :: (runSteps l ps ds).2.1, (runSteps l ps ds).2.2) := by
  rw [runSteps, hst]

theorem runSteps_fault_length (l : Loop) (ds : List Iter) (s s2 : RunState)
    (rs : List IterResult) (v : ℕ) (h : runSteps l s ds = (s2, rs, some v)) :
    rs.length < ds.length := by
  induction ds generalizing s s2 rs with
  | nil => rw [runSteps_nil] at h; simp at h
  | cons d ds ih =>
    cases hst : step l d s with
    | error w =>
      rw [runSteps_cons_err l d ds s w hst] at h
      simp only [Prod.mk.injEq] at h
      obtain ⟨-, h2, -⟩ := h
      simp [← h2]
    | ok p =>
      obtain ⟨ps, pr⟩ := p
      rw [runSteps_cons_ok l d ds s ps pr hst] at h
      simp only [Prod.mk.injEq] at h
      obtain ⟨-, h2, h3⟩ := h
      rcases hrec : runSteps l ps ds with ⟨a, b, c⟩
      rw [hrec] at h2 h3
      have hlen := ih ps a b (by rw [hrec, ← h3])
      simp [← h2]
      omega

theorem getLast?_getD_cons (a : ℤ) (xs : List ℤ) (dflt : ℤ) :
    ((a :: xs).getLast?).getD dflt = (xs.getLast?).getD a := by
  cases xs with
  | nil => rfl
  | cons b ys =>
    rw [List.getLast?_cons_cons, List.getLast?_eq_getLast (b :: ys) (List.cons_ne_nil b ys)]
    rfl

/-- Across a whole run segment, the final `currentFps` is the last value published by
the rate meter, or the initial one if no window rolled over. -/
theorem runSteps_lastPub (l : Loop) (ds : List Iter) (s s2 : RunState)
    (rs : List IterResult) (f : Option ℕ) (h : runSteps l s ds = (s2, rs, f)) :
    s2.currentFps = ((rs.filterMap IterResult.published).getLast?).getD s.currentFps := by
  induction ds generalizing s s2 rs f with
  | nil =>
    rw [runSteps_nil] at h
    simp only [Prod.mk.injEq] at h
    obtain ⟨h1, h2, -⟩ := h
    subst h1; subst h2
    rfl
  | cons d ds ih =>
    cases hst : step l d s with
    | error w =>
      rw [runSteps_cons_err l d ds s w hst] at h
      simp only [Prod.mk.injEq] at h
      obtain ⟨h1, h2, -⟩ := h
      subst h1; subst h2
      rfl
    | ok p =>
      obtain ⟨ps, pr⟩ := p
      rw [runSteps_cons_ok l d ds s ps pr hst] at h
      rcases hrec : runSteps l ps ds with ⟨a, b, c⟩
      rw [hrec] at h
      simp only [Prod.mk.injEq] at h
      obtain ⟨h1, h2, h3⟩ := h
      subst h1; subst h2; subst h3
      obtain ⟨t1, t2, t3, hin, hup, hrn, hs1, hres⟩ := step_ok_elim l d s ps pr hst
      have hih := ih ps a b c hrec
      by_cases hroll : 1000000000 ≤ t3 - s.lastSecond
      · have hpub : pr.published = some (s.frameCounter + 1) := by
          rw [hres]; simp [hroll]
        have hfps : ps.currentFps = s.frameCounter + 1 := by
          rw [hs1]; simp [hroll]
        rw [List.filterMap_cons, hpub, getLast?_getD_cons, hih, hfps]
      · have hpub : pr.published = none := by
          rw [hres]; simp [hroll]
        have hfps : ps.currentFps = s.currentFps := by
          rw [hs1]; simp [hroll]
        rw [List.filterMap_cons, hpub, hih, hfps]

/-- Completion timestamp of the pass before pass `i`: the run start time `t0` for the
first pass, otherwise the `lastFrame` timestamp written by pass `i - 1`. -/
def prevCompletion (t0 : ℕ) (rs : List IterResult) (i : ℕ) : ℕ :=
  if i = 0 then t0 else (rs.map IterResult.endT).getD (i - 1) t0

/-- Per-pass phase events across a run segment: each pass performs input, update,
render in this order, each present iff its slot is registered, and the update argument
is the wall-clock time elapsed from the previous pass's completion timestamp (the
segment's `lastFrame` baseline for the first pass) to the moment update is called. -/
theorem runSteps_events (l : Loop) (ds : List Iter) (s s2 : RunState)
    (rs : List IterResult) (f : Option ℕ) (h : runSteps l s ds = (s2, rs, f)) :
    ∀ i, (hi : i < rs.length) →
      rs[i].events =
        (if l.hasInput then [Event.input] else []) ++
        (if l.hasUpdate then
          [Event.update (rs[i].updCallT - prevCompletion s.lastFrame rs i)] else []) ++
        (if l.hasRender then [Event.render] else []) := by
  induction ds generalizing s s2 rs f with
  | nil =>
    rw [runSteps_nil] at h
    simp only [Prod.mk.injEq] at h
    obtain ⟨-, h2, -⟩ := h
    subst h2
    intro i hi
    simp at hi
  | cons d ds ih =>
    cases hst : step l d s with
    | error w =>
      rw [runSteps_cons_err l d ds s w hst] at h
      simp only [Prod.mk.injEq] at h
      obtain ⟨-, h2, -⟩ := h
      subst h2
      intro i hi
      simp at hi
    | ok p =>
      obtain ⟨ps, pr⟩ := p
      rw [runSteps_cons_ok l d ds s ps pr hst] at h
      rcases hrec : runSteps l ps ds with ⟨a, b, c⟩
      rw [hrec] at h
      simp only [Prod.mk.injEq] at h
      obtain ⟨h1, h2, h3⟩ := h
      subst h1; subst h2; subst h3
      obtain ⟨t1, t2, t3, hin, hup, hrn, hs1, hres⟩ := step_ok_elim l d s ps pr hst
      have hih := ih ps a b c hrec
      intro i hi
      cases i with
      | zero =>
        simp only [List.getElem_cons_zero, prevCompletion, if_pos rfl]
        rw [hres]
        rfl
      | succ j =>
        have hj : j < b.length := by simpa using hi
        simp only [List.getElem_cons_succ]
        have heq : prevCompletion s.lastFrame (pr :: b) (j + 1) =
            prevCompletion ps.lastFrame b j := by
          unfold prevCompletion
          cases j with
          | zero =>
            simp only [if_neg (Nat.succ_ne_zero 0), if_pos rfl]
            rw [hs1, hres]
            simp
          | succ k =>
            simp only [if_neg (Nat.succ_ne_zero (k + 1)), if_neg (Nat.succ_ne_zero k)]
            have hk : k < (b.map IterResult.endT).length := by
              simp only [List.length_map]; omega
            rw [show k + 1 + 1 - 1 = k + 1 from rfl, show k + 1 - 1 = k from rfl,
              List.map_cons, List.getD_cons_succ,
              List.getD_eq_getElem _ _ hk, List.getD_eq_getElem _ _ hk]
        rw [heq]
        exact hih j hj

/-- Per-pass pacing across a run segment: every pass computes its sleep amount as the
per-frame budget minus the truncated milliseconds elapsed between its start and
completion timestamps, and the next pass starts exactly that many milliseconds (when
positive, and zero otherwise) after the completion timestamp. -/
theorem runSteps_pacing (l : Loop) (ds : List Iter) (s s2 : RunState)
    (rs : List IterResult) (f : Option ℕ) (h : runSteps l s ds = (s2, rs, f)) :
    (∀ (hi : 0 < rs.length), rs[0].startT = s.now) ∧
    ∀ i, (hi : i < rs.length) →
      (rs[i].sleepMs =
        l.msPerFrame - (((rs[i].endT - rs[i].startT) / 1000000 : ℕ) : ℤ)) ∧
      ∀ (hi1 : i + 1 < rs.length),
        rs[i + 1].startT = rs[i].endT +
          (if 0 < rs[i].sleepMs then rs[i].sleepMs.toNat * 1000000 else 0) := by
  induction ds generalizing s s2 rs f with
  | nil =>
    rw [runSteps_nil] at h
    simp only [Prod.mk.injEq] at h
    obtain ⟨-, h2, -⟩ := h
    subst h2
    exact ⟨fun hi => by simp at hi, fun i hi => by simp at hi⟩
  | cons d ds ih =>
    cases hst : step l d s with
    | error w =>
      rw [runSteps_cons_err l d ds s w hst] at h
      simp only [Prod.mk.injEq] at h
      obtain ⟨-, h2, -⟩ := h
      subst h2
      exact ⟨fun hi => by simp at hi, fun i hi => by simp at hi⟩
    | ok p =>
      obtain ⟨ps, pr⟩ := p
      rw [runSteps_cons_ok l d ds s ps pr hst] at h
      rcases hrec : runSteps l ps ds with ⟨a, b, c⟩
      rw [hrec] at h
      simp only [Prod.mk.injEq] at h
      obtain ⟨h1, h2, h3⟩ := h
      subst h1; subst h2; subst h3
      obtain ⟨t1, t2, t3, hin, hup, hrn, hs1, hres⟩ := step_ok_elim l d s ps pr hst
      have hih := ih ps a b c hrec
      constructor
      · intro hi
        simp only [List.getElem_cons_zero]
        rw [hres]
      · intro i hi
        cases i with
        | zero =>
          constructor
          · simp only [List.getElem_cons_zero]
            rw [hres]
          · intro hi1
            have hq0 : 0 < b.length := by simpa using hi1
            simp only [List.getElem_cons_succ, List.getElem_cons_zero]
            rw [hih.1 hq0, hs1, hres]
            dsimp only
            split_ifs with hpos
            · rfl
            · omega
        | succ j =>
          have hj : j < b.length := by simpa using hi
          constructor
          · simp only [List.getElem_cons_succ]
            exact ((hih.2 j hj).1)
          · intro hi1
            have hj1 : j + 1 < b.length := by simpa using hi1
            simp only [List.getElem_cons_succ]
            exact (hih.2 j hj).2 hj1

theorem run_eq (l : Loop) (t0 : ℕ) (ds : List Iter) :
    run l t0 ds =
      ({ l with currentFps := (runSteps l ⟨t0, t0, t0, 0, l.currentFps⟩ ds).1.currentFps },
        (runSteps l ⟨t0, t0, t0, 0, l.currentFps⟩ ds).2.1,
        (runSteps l ⟨t0, t0, t0, 0, l.currentFps⟩ ds).2.2) := rfl

/-! ### Claim theorems -/

/-- C1: for every loop with no update callback registered, `Start` fails with the
`MissingUpdateCallback` error (`ERR_NO_UPDATE_FUNC`) and performs no iterations: the
trace is empty (so input, update and render are never invoked) and the loop state is
returned unchanged. -/
theorem start_without_update_fails (l : Loop) (t0 : ℕ) (ds : List Iter)
    (h : l.hasUpdate = false) :
    Start l t0 ds = (StartOutcome.err ERR_NO_UPDATE_FUNC, l, []) := by
  simp [Start, h]

/-- C1 witness at a fresh loop with a nonempty oracle list. -/
theorem start_without_update_fails_witness :
    NewLoop.hasUpdate = false ∧
      Start NewLoop 0 [⟨1, 1, 1, none, none, none⟩] =
        (StartOutcome.err ERR_NO_UPDATE_FUNC, NewLoop, []) :=
  ⟨rfl, start_without_update_fails NewLoop 0 [⟨1, 1, 1, none, none, none⟩] rfl⟩

/-- C8: calling `Start` while the loop is already running (with an update callback
registered) returns success — the nil-error outcome — with no side effects (the loop
value is unchanged) and without starting a second loop (no passes are executed). -/
theorem start_noop_when_running (l : Loop) (t0 : ℕ) (ds : List Iter)
    (h1 : l.hasUpdate = true) (h2 : l.isRunning = true) :
    Start l t0 ds = (StartOutcome.ok, l, []) := by
  simp [Start, h1, h2]

/-- C8 witness at a concrete running loop. -/
theorem start_noop_when_running_witness :
    (⟨60, 16, false, true, false, true, false, false, 0⟩ : Loop).hasUpdate = true ∧
    (⟨60, 16, false, true, false, true, false, false, 0⟩ : Loop).isRunning = true ∧
    Start ⟨60, 16, false, true, false, true, false, false, 0⟩ 5 [⟨1, 1, 1, none, none, none⟩] =
      (StartOutcome.ok, ⟨60, 16, false, true, false, true, false, false, 0⟩, []) :=
  ⟨rfl, rfl, start_noop_when_running ⟨60, 16, false, true, false, true, false, false, 0⟩ 5
    [⟨1, 1, 1, none, none, none⟩] rfl rfl⟩

/-- C9: `Stop` always returns the nil error; it is idempotent (a second `Stop` changes
nothing); it always leaves `IsRunning` false; and on a loop that is not running — in
particular one never started — it is a complete no-op returning success. -/
theorem stop_idempotent_noop (l : Loop) :
    (Stop l).1 = none ∧
    IsRunning (Stop l).2 = false ∧
    Stop (Stop l).2 = Stop l ∧
    Stop { l with isRunning := false } = (none, { l with isRunning := false }) := by
  by_cases h : l.isRunning <;> simp [Stop, IsRunning, h]

/-- C6: immediately after `SetTargetFps r`, `GetTargetFps` reports
`clamp(r, 1, 2^63 - 1)`: the rate is reported in a 64-bit signed integer whose largest
value is `2^63 - 1`, every Go `int` argument already satisfies the upper bound, and the
lower bound 1 is enforced by the `max`; out-of-range inputs are silently clamped, never
rejected (the setter is total and returns no error). -/
theorem setTargetFps_clamp (l : Loop) (r : ℤ) (h : r ≤ 2 ^ 63 - 1) :
    GetTargetFps (SetTargetFps l r) = max 1 (min r (2 ^ 63 - 1)) := by
  show max r 1 = max 1 (min r (2 ^ 63 - 1))
  omega

/-- C6 witness: a below-range request is clamped to 1. -/
theorem setTargetFps_clamp_witness :
    ((-5 : ℤ) ≤ 2 ^ 63 - 1 ∧
      GetTargetFps (SetTargetFps NewLoop (-5)) = max 1 (min (-5) (2 ^ 63 - 1))) :=
  ⟨by decide, setTargetFps_clamp NewLoop (-5) (by decide)⟩

/-- C5 counterexample: with target rate 3 the stored budget is 333 ms, while 1 second
divided by the rate is 1000/3 ms — not 333.  The code truncates the scaled reciprocal
to a whole number of milliseconds, so the claimed exact equality fails. -/
theorem budget_not_exact_reciprocal :
    (SetTargetFps NewLoop 3).msPerFrame = 333 ∧
      ((SetTargetFps NewLoop 3).msPerFrame : ℚ) ≠
        1000 / ((SetTargetFps NewLoop 3).targetFps : ℚ) := by
  have h1 : (SetTargetFps NewLoop 3).msPerFrame = 333 := by with_unfolding_all rfl
  have h2 : (SetTargetFps NewLoop 3).targetFps = 3 := by with_unfolding_all rfl
  refine ⟨h1, ?_⟩
  rw [h1, h2]
  norm_num

/-- C5 (amended): for every stored target rate the derived per-iteration budget equals
1 second divided by the target rate, scaled to the millisecond unit and truncated to a
whole integer (`msPerFrame = ⌊1000 / targetFps⌋`), and it is recomputed from the newly
stored rate by every `SetTargetFps` call. -/
theorem budget_truncated_reciprocal (l : Loop) (r : ℤ) (h : r ≤ 2 ^ 63 - 1) :
    (SetTargetFps l r).msPerFrame = 1000 / GetTargetFps (SetTargetFps l r) := by
  show msPerFrameF32 (max r 1) = 1000 / max r 1
  exact msPerFrameF32_eq (max r 1) (le_max_right r 1)

/-- C5 witness: rate 3 gives budget `⌊1000/3⌋ = 333`. -/
theorem budget_truncated_reciprocal_witness :
    ((3 : ℤ) ≤ 2 ^ 63 - 1 ∧
      (SetTargetFps NewLoop 3).msPerFrame = 1000 / GetTargetFps (SetTargetFps NewLoop 3)) :=
  ⟨by decide, budget_truncated_reciprocal NewLoop 3 (by decide)⟩

/-- C10: for every target rate above 1000 (and representable in a Go `int`) the
derived budget truncates to 0 ms, hence in every pass the computed sleep amount
`0 - elapsedMs` is never positive and the pacing sleep never runs: the successor
clock equals the pass completion time exactly, so the loop proceeds unthrottled. -/
theorem unthrottled_above_1000 (l : Loop) (r : ℤ) (hr : 1000 < r)
    (hr2 : r ≤ 2 ^ 63 - 1) :
    (SetTargetFps l r).msPerFrame = 0 ∧
      ∀ (d : Iter) (s s1 : RunState) (res : IterResult),
        step (SetTargetFps l r) d s = Except.ok (s1, res) →
        res.sleepMs ≤ 0 ∧ s1.now = res.endT := by
  have hmax : max r 1 = r := by omega
  have h0 : (SetTargetFps l r).msPerFrame = 0 := by
    show msPerFrameF32 (max r 1) = 0
    rw [hmax, msPerFrameF32_eq r (by omega)]
    exact Int.ediv_eq_zero_of_lt (by norm_num) hr
  refine ⟨h0, ?_⟩
  intro d s s1 res h
  obtain ⟨t1, t2, t3, hin, hup, hrn, hs1, hres⟩ := step_ok_elim _ _ _ _ _ h
  subst hs1; subst hres
  dsimp only
  have hx : ¬ (0 : ℤ) < 0 - (((t3 - s.now) / 1000000 : ℕ) : ℤ) := by omega
  constructor
  · rw [h0]; omega
  · rw [h0, if_neg hx]

/-- C2: in every pass of a run the phase callbacks are invoked in the order input,
then update, then render, each present iff its slot is registered (non-nil); the
update callback receives exactly one argument, the elapsed wall-clock time from the
previous pass's completion timestamp (for the very first pass, from the loop start
`t0`) to the moment of the call. -/
theorem phase_order_and_delta (l : Loop) (t0 : ℕ) (ds : List Iter) (l2 : Loop)
    (rs : List IterResult) (f : Option ℕ) (hrun : run l t0 ds = (l2, rs, f)) :
    ∀ i, (hi : i < rs.length) →
      rs[i].events =
        (if l.hasInput then [Event.input] else []) ++
        (if l.hasUpdate then
          [Event.update (rs[i].updCallT - prevCompletion t0 rs i)] else []) ++
        (if l.hasRender then [Event.render] else []) := by
  rw [run_eq] at hrun
  rcases hrs : runSteps l ⟨t0, t0, t0, 0, l.currentFps⟩ ds with ⟨a, b, c⟩
  rw [hrs] at hrun
  simp only [Prod.mk.injEq] at hrun
  obtain ⟨-, h2, -⟩ := hrun
  subst h2
  exact runSteps_events l ds ⟨t0, t0, t0, 0, l.currentFps⟩ a b c hrs

/-- C3: in every pass of a run the scheduler computes the sleep amount as the
per-iteration budget minus the elapsed milliseconds of the pass
(`sleepMs = msPerFrame - (endT - startT) / 10^6`), and the next pass starts exactly
`sleepMs` milliseconds after the completion timestamp when `sleepMs` is positive and
immediately at the completion timestamp otherwise: overrunning passes get no
compensating sleep anywhere else. -/
theorem pacing_sleep (l : Loop) (t0 : ℕ) (ds : List Iter) (l2 : Loop)
    (rs : List IterResult) (f : Option ℕ) (hrun : run l t0 ds = (l2, rs, f)) :
    ∀ i, (hi : i < rs.length) →
      (rs[i].sleepMs =
        l.msPerFrame - (((rs[i].endT - rs[i].startT) / 1000000 : ℕ) : ℤ)) ∧
      ∀ (hi1 : i + 1 < rs.length),
        rs[i + 1].startT = rs[i].endT +
          (if 0 < rs[i].sleepMs then rs[i].sleepMs.toNat * 1000000 else 0) := by
  rw [run_eq] at hrun
  rcases hrs : runSteps l ⟨t0, t0, t0, 0, l.currentFps⟩ ds with ⟨a, b, c⟩
  rw [hrs] at hrun
  simp only [Prod.mk.injEq] at hrun
  obtain ⟨-, h2, -⟩ := hrun
  subst h2
  exact (runSteps_pacing l ds ⟨t0, t0, t0, 0, l.currentFps⟩ a b c hrs).2

/-- C4: the rate meter publishes a new rate in exactly the passes whose completion
time is at least one second (10^9 ns) after the window start `lastSecond`; the
published value is the incremented pass counter of the window, the counter is then
reset to 0 and the window start to the completion time; in all other passes the meter
state is carried over with only the counter incremented.  Across a whole run,
`GetCurrentFps` returns the last published value and remains at its initial value
(0 for a fresh loop, whose `currentFps` zero value is never touched before the first
rollover) until the first window rolls over. -/
theorem rate_meter_window :
    (∀ (l : Loop) (d : Iter) (s s1 : RunState) (res : IterResult),
        step l d s = Except.ok (s1, res) →
        (res.published =
          if 1000000000 ≤ res.endT - s.lastSecond then some (s.frameCounter + 1)
          else none) ∧
        (1000000000 ≤ res.endT - s.lastSecond →
          s1.currentFps = s.frameCounter + 1 ∧ s1.frameCounter = 0 ∧
          s1.lastSecond = res.endT) ∧
        (¬ 1000000000 ≤ res.endT - s.lastSecond →
          s1.currentFps = s.currentFps ∧ s1.frameCounter = s.frameCounter + 1 ∧
          s1.lastSecond = s.lastSecond)) ∧
    (∀ (l : Loop) (t0 : ℕ) (ds : List Iter) (l2 : Loop) (rs : List IterResult)
        (f : Option ℕ), run l t0 ds = (l2, rs, f) →
        GetCurrentFps l2 = ((rs.filterMap IterResult.published).getLast?).getD
          (GetCurrentFps l)) := by
  constructor
  · intro l d s s1 res h
    obtain ⟨t1, t2, t3, hin, hup, hrn, hs1, hres⟩ := step_ok_elim l d s s1 res h
    subst hs1; subst hres
    dsimp only
    by_cases hroll : 1000000000 ≤ t3 - s.lastSecond
    · simp [hroll]
    · simp [hroll]
  · intro l t0 ds l2 rs f hrun
    rw [run_eq] at hrun
    rcases hrs : runSteps l ⟨t0, t0, t0, 0, l.currentFps⟩ ds with ⟨a, b, c⟩
    rw [hrs] at hrun
    simp only [Prod.mk.injEq] at hrun
    obtain ⟨h1, h2, -⟩ := hrun
    subst h2
    have hlast := runSteps_lastPub l ds ⟨t0, t0, t0, 0, l.currentFps⟩ a b c hrs
    rw [← h1]
    exact hlast

/-- C7: if a fault handler is registered, then whenever a phase callback raises a
fault during the run, `Start` terminates with the fault delivered to the handler
(outcome `okRecovered v`, which is not a propagating panic), and no further passes
run: the executed trace is strictly shorter than the available oracle list, the run
ending at the faulting pass exactly as a stop would end it. -/
theorem recover_intercepts (l : Loop) (t0 : ℕ) (ds : List Iter) (l2 : Loop)
    (rs : List IterResult) (v : ℕ) (hrec : l.hasRecover = true)
    (hupd : l.hasUpdate = true) (hnotrun : l.isRunning = false)
    (hrun : run { l with isRunning := true } t0 ds = (l2, rs, some v)) :
    Start l t0 ds = (StartOutcome.okRecovered v, l2, rs) ∧ rs.length < ds.length := by
  constructor
  · have hne1 : ¬ (l.hasUpdate = false) := by simp [hupd]
    have hne2 : ¬ (l.isRunning = true) := by simp [hnotrun]
    rw [Start, if_neg hne1, if_neg hne2, hrun]
    dsimp only
    rw [if_pos hrec]
  · rw [run_eq] at hrun
    rcases hrs : runSteps { l with isRunning := true }
        ⟨t0, t0, t0, 0, ({ l with isRunning := true } : Loop).currentFps⟩ ds with ⟨a, b, c⟩
    rw [hrs] at hrun
    simp only [Prod.mk.injEq] at hrun
    obtain ⟨-, h2, h3⟩ := hrun
    subst h2
    rw [h3] at hrs
    exact runSteps_fault_length _ ds _ a _ v hrs

/-! ### Concrete fixtures for the witnesses -/

/-- Witness loop: 60 fps (16 ms budget), all three phase callbacks registered. -/
def wLoop : Loop := ⟨60, 16, false, false, true, true, true, false, 0⟩

/-- Witness oracle: two passes with small distinct callback durations. -/
def wIters : List Iter := [⟨2, 3, 4, none, none, none⟩, ⟨5, 6, 7, none, none, none⟩]

/-- The trace produced by running `wLoop` from time 0 over `wIters`. -/
def wTrace : List IterResult :=
  [⟨[Event.input, Event.update 2, Event.render], 0, 2, 9, 16, none⟩,
   ⟨[Event.input, Event.update 16000005, Event.render],
     16000009, 16000014, 16000027, 16, none⟩]

/-- Witness mid-run state whose fps window is about to roll over. -/
def wState : RunState := ⟨2000000000, 1999999000, 900000000, 41, 0⟩

/-- Witness pass oracle taking 100 ms in the update callback. -/
def wIterRoll : Iter := ⟨0, 100000000, 0, none, none, none⟩

/-- Successor state of `step wLoop wIterRoll wState`: the window rolled at 42 passes. -/
def wStateAfter : RunState := ⟨2100000000, 2100000000, 2100000000, 0, 42⟩

/-- Pass record of `step wLoop wIterRoll wState`. -/
def wResRoll : IterResult :=
  ⟨[Event.input, Event.update 1000, Event.render],
    2000000000, 2000000000, 2100000000, -84, some 42⟩

/-- Pass record of the same pass under a 1001 fps (0 ms budget) configuration. -/
def wRes1001 : IterResult :=
  ⟨[Event.input, Event.update 1000, Event.render],
    2000000000, 2000000000, 2100000000, -100, some 42⟩

/-- Witness loop for fault recovery: update and recover handlers registered. -/
def wLoop7 : Loop := ⟨60, 16, false, false, false, true, false, true, 0⟩

/-- Witness pass oracle whose update callback panics with fault value 7. -/
def wIterPanic : Iter := ⟨0, 0, 0, none, some 7, none⟩

/-- C2 witness: on the two-pass run of `wLoop`, pass 1 performs input, update, render
in order and its update argument is the time elapsed since pass 0 completed. -/
theorem phase_order_and_delta_witness :
    run wLoop 0 wIters = (wLoop, wTrace, none) ∧
    (wTrace.get ⟨1, by decide⟩).events =
      (if wLoop.hasInput then [Event.input] else []) ++
      (if wLoop.hasUpdate then
        [Event.update ((wTrace.get ⟨1, by decide⟩).updCallT - prevCompletion 0 wTrace 1)]
       else []) ++
      (if wLoop.hasRender then [Event.render] else []) :=
  ⟨by decide, phase_order_and_delta wLoop 0 wIters wLoop wTrace none (by decide) 1 (by decide)⟩

/-- C3 witness: on the same run, pass 0 computes `sleepMs = 16 - 0` and pass 1 starts
exactly 16 ms after pass 0 completed. -/
theorem pacing_sleep_witness :
    run wLoop 0 wIters = (wLoop, wTrace, none) ∧
    ((wTrace.get ⟨0, by decide⟩).sleepMs = wLoop.msPerFrame -
      ((((wTrace.get ⟨0, by decide⟩).endT - (wTrace.get ⟨0, by decide⟩).startT) /
        1000000 : ℕ) : ℤ)) ∧
    (wTrace.get ⟨1, by decide⟩).startT = (wTrace.get ⟨0, by decide⟩).endT +
      (if 0 < (wTrace.get ⟨0, by decide⟩).sleepMs then
        (wTrace.get ⟨0, by decide⟩).sleepMs.toNat * 1000000 else 0) :=
  ⟨by decide,
   (pacing_sleep wLoop 0 wIters wLoop wTrace none (by decide) 0 (by decide)).1,
   (pacing_sleep wLoop 0 wIters wLoop wTrace none (by decide) 0 (by decide)).2 (by decide)⟩

/-- C4 witness: the concrete pass `step wLoop wIterRoll wState` completes 1.2 s after
the window start, so it publishes `currentFps = 42` and resets the window, and over
the short two-pass run (no rollover) `GetCurrentFps` keeps its initial value 0. -/
theorem rate_meter_window_witness :
    step wLoop wIterRoll wState = Except.ok (wStateAfter, wResRoll) ∧
    (wResRoll.published =
      if 1000000000 ≤ wResRoll.endT - wState.lastSecond then
        some (wState.frameCounter + 1) else none) ∧
    (wStateAfter.currentFps = wState.frameCounter + 1 ∧ wStateAfter.frameCounter = 0 ∧
      wStateAfter.lastSecond = wResRoll.endT) ∧
    GetCurrentFps (run wLoop 0 wIters).1 =
      (((run wLoop 0 wIters).2.1.filterMap IterResult.published).getLast?).getD
        (GetCurrentFps wLoop) :=
  ⟨rfl,
   (rate_meter_window.1 wLoop wIterRoll wState wStateAfter wResRoll rfl).1,
   (rate_meter_window.1 wLoop wIterRoll wState wStateAfter wResRoll rfl).2.1
     (by decide),
   rate_meter_window.2 wLoop 0 wIters (run wLoop 0 wIters).1 (run wLoop 0 wIters).2.1
     (run wLoop 0 wIters).2.2 rfl⟩

/-- C7 witness: a panic with value 7 in the update callback of the first pass is
caught and delivered to the registered handler; no pass completes. -/
theorem recover_intercepts_witness :
    Start wLoop7 0 [wIterPanic] =
      (StartOutcome.okRecovered 7, { wLoop7 with isRunning := true }, []) ∧
    ([] : List IterResult).length < [wIterPanic].length :=
  recover_intercepts wLoop7 0 [wIterPanic] { wLoop7 with isRunning := true } [] 7
    rfl rfl rfl (by decide)

/-- C10 witness: at target rate 1001 the budget is 0 ms and the concrete pass
`step (SetTargetFps wLoop 1001) wIterRoll wState` computes a non-positive sleep and
proceeds immediately at its completion time. -/
theorem unthrottled_above_1000_witness :
    (SetTargetFps wLoop 1001).msPerFrame = 0 ∧
    (wRes1001.sleepMs ≤ 0 ∧ wStateAfter.now = wRes1001.endT) :=
  ⟨(unthrottled_above_1000 wLoop 1001 (by decide) (by decide)).1,
   (unthrottled_above_1000 wLoop 1001 (by decide) (by decide)).2 wIterRoll wState
     wStateAfter wRes1001 (by with_unfolding_all rfl)⟩
